import Mathlib

/-!
Verification of the classified-band renderer and the legacy UDM bit decoder
from the `udm2` notebook (`jupyter-notebooks/udm2/udm2.ipynb`).

Modelling choices:
* A raster band (possibly a numpy masked array) is a 2-D grid of cells; a
  cell is `none` when masked/invalid and `some q` for a numeric value `q : ℚ`.
  Numeric values are modelled as rationals.
* `np.unique` over a masked array, followed by the comprehension in
  `_ClassNormalize.__init__` that drops the masked constant, yields the
  distinct unmasked values in ascending order; we model this as sorting the
  deduplicated valid values.
* `np.around` rounds half to even; `roundHalfEven` models it on rationals.
* In `_ClassNormalize.__call__` the loop `new_arry[arry==k] = v` compares
  every position against the *fixed* rounded input array `arry`, so the
  sequential in-place assignments act independently on each cell; we model
  the loop as a per-cell fold over the mapping items in order, where a later
  matching item overwrites an earlier one.
-/

namespace Udm2

/-- A pixel of a (possibly masked) band: `none` is a masked entry. -/
abbrev Cell := Option ℚ

/-- A 2-D band: a list of rows of cells. -/
abbrev Grid := List (List Cell)

/-- All valid (unmasked) values of a band, row-major. -/
def validValues (g : Grid) : List ℚ :=
  (g.map (fun row => row.filterMap id)).flatten

/-- `np.unique` restricted to unmasked values, as in the comprehension of
`_ClassNormalize.__init__`: the distinct valid values in ascending order. -/
def uniqueValid (g : Grid) : List ℚ :=
  List.insertionSort (· ≤ ·) (validValues g).dedup

/-- The mapping construction of `_ClassNormalize.__init__` applied to an
already-extracted value list: `color_ticks` is `range(len(values))/(len-1)`
when there is more than one value and `[0]` otherwise, and the mapping is
`dict(zip(values, color_ticks))`. -/
def mappingOfValues (values : List ℚ) : List (ℚ × ℚ) :=
  let colorTicks : List ℚ :=
    if values.length > 1 then
      (List.range values.length).map
        (fun i : ℕ => (i : ℚ) / ((values.length : ℚ) - 1))
    else [0]
  values.zip colorTicks

/-- `_ClassNormalize.__init__`: map the unique unmasked values of the band to
points in the range 0–1. -/
def classMapping (arry : Grid) : List (ℚ × ℚ) :=
  mappingOfValues (uniqueValid arry)

/-- `np.around`: round half to even. -/
def roundHalfEven (q : ℚ) : ℤ :=
  if q - ⌊q⌋ < 1 / 2 then ⌊q⌋
  else if 1 / 2 < q - ⌊q⌋ then ⌊q⌋ + 1
  else if ⌊q⌋ % 2 = 0 then ⌊q⌋ else ⌊q⌋ + 1

/-- One cell of `_ClassNormalize.__call__`: the cell is rounded
(`arry = np.around(arry)`), then the loop `for k, v in mapping.items():
new_arry[arry==k] = v` writes `v` wherever the rounded input equals `k`;
since the comparison is always against the fixed rounded input, each cell
evolves independently and a later matching item overwrites an earlier one.
Masked cells never compare equal to a key and pass through. -/
def normalizeCell (mapping : List (ℚ × ℚ)) (c : Cell) : Cell :=
  match c with
  | none => none
  | some q =>
    let r : ℚ := (roundHalfEven q : ℚ)
    some (mapping.foldl (fun cur kv => if r = kv.1 then kv.2 else cur) r)

/-- `_ClassNormalize.__call__` on a whole band. -/
def normalize (mapping : List (ℚ × ℚ)) (arry : Grid) : Grid :=
  arry.map (fun row => row.map (normalizeCell mapping))

/-- Python `dict` lookup on an association list with distinct keys. -/
def dictLookup (m : List (ℚ × ℚ)) (k : ℚ) : Option ℚ :=
  match m with
  | [] => none
  | kv :: rest => if kv.1 = k then some kv.2 else dictLookup rest k

/-- The legend list comprehension of `imshow_class_band`:
`[im.cmap(color_mapping[k]) for k in class_labels.keys()]`, paired with the
labels. Keys are looked up left to right; a key absent from the mapping
raises `KeyError`, modelled as `Except.error`. -/
def legendList (m : List (ℚ × ℚ)) : List (ℚ × α) → Except String (List (ℚ × α))
  | [] => .ok []
  | kl :: rest =>
    match dictLookup m kl.1 with
    | none => .error "KeyError"
    | some p => (legendList m rest).map (fun t => (p, kl.2) :: t)

/-- The legend construction of `imshow_class_band`: when `class_labels` is
`None`, `class_labels.keys()` raises `AttributeError`, which is caught and
yields no legend entries; otherwise each key is looked up in the mapping. -/
def legendEntries (m : List (ℚ × ℚ)) (classLabels : Option (List (ℚ × α))) :
    Except String (List (ℚ × α)) :=
  match classLabels with
  | none => .ok []
  | some labels => legendList m labels

/-- The per-band `class_labels` choice of `visualize_udm2`: when the band has
fewer than 5 distinct values, `OrderedDict((v, v) for v in np.unique(band))`;
otherwise `None`. -/
def visualizeClassLabels (band : Grid) : Option (List (ℚ × ℚ)) :=
  let unique := uniqueValid band
  if unique.length < 5 then some (unique.map (fun v => (v, v))) else none

/-- `'{0:08b}'.format(v)` for a byte value: the 8-digit zero-padded binary
rendering used as the defensive fallback of `get_udm_labels.get_label`. -/
def binString8 (v : ℕ) : String :=
  String.mk ((List.range 8).map (fun i => if (v >>> (7 - i)) % 2 = 1 then '1' else '0'))

/-- The `bands` list built by the successive bit tests of
`get_udm_labels.get_label`, in source order (bits 2 to 7). -/
def udmBands (v : ℕ) : List String :=
  (if v &&& 4 ≠ 0 then ["Blue"] else []) ++
  (if v &&& 8 ≠ 0 then ["Green"] else []) ++
  (if v &&& 16 ≠ 0 then ["Red"] else []) ++
  (if v &&& 32 ≠ 0 then ["Red-Edge"] else []) ++
  (if v &&& 64 ≠ 0 then ["NIR"] else []) ++
  (if v &&& 128 ≠ 0 then ["Coastal Blue/Green I/Yellow"] else [])

/-- The `labels` list built by `get_udm_labels.get_label` before the
defensive fallback: `"cloud"` when bit 1 is set, then the combined
`"missing/suspect {bands} data"` label when any of bits 2 to 7 is set. -/
def udmLabelsList (v : ℕ) : List String :=
  (if v &&& 2 ≠ 0 then ["cloud"] else []) ++
  (if v &&& 252 ≠ 0 then
    ["missing/suspect " ++ String.intercalate ", " (udmBands v) ++ " data"]
  else [])

/-- `get_udm_labels.get_label`: decode one legacy UDM byte to a label. -/
def getLabel (v : ℕ) : String :=
  if v = 0 then "clear"
  else if v = 1 then "blackfill"
  else
    let labels := udmLabelsList v
    let labels := if labels = [] then [binString8 v] else labels
    String.intercalate " + " labels

/-- The six fixed channels in ascending bit order (bits 2 to 7), as the spec
describes them, with the bit value each one answers to. -/
def channelTable : List (ℕ × String) :=
  [(4, "Blue"), (8, "Green"), (16, "Red"), (32, "Red-Edge"),
   (64, "NIR"), (128, "Coastal Blue/Green I/Yellow")]

/-- The cell of a band at row `i`, column `j` (`none` when out of range). -/
def cellAt (g : Grid) (i j : ℕ) : Option Cell :=
  g[i]?.bind (fun row => row[j]?)

/-- The mapping invariant as the spec states it: `N ≥ 2` distinct codes in
ascending order receive the positions `i / (N - 1)`, a single code receives
`0`, no codes give an empty mapping. -/
def specPositions (vs : List ℚ) : List (ℚ × ℚ) :=
  match vs with
  | [] => []
  | [v] => [(v, 0)]
  | _ =>
    (List.range vs.length).map
      (fun i : ℕ => (vs.getD i 0, (i : ℚ) / ((vs.length : ℚ) - 1)))

/-- The concrete all-valid example band of the spec. -/
def band1 : Grid := [[some 0, some 1, some 5], [some 5, some 1, some 0]]

/-- An all-valid band with five distinct values. -/
def band5 : Grid := [[some 0, some 1, some 2, some 3, some 4]]

end Udm2

namespace Udm2

theorem mappingOfValues_keys (values : List ℚ) :
    (mappingOfValues values).map Prod.fst = values := by
  unfold mappingOfValues
  by_cases h : values.length > 1
  · simp only [if_pos h]
    exact List.map_fst_zip _ _
      (le_of_eq (by rw [List.length_map, List.length_range]))
  · simp only [if_neg h]
    rcases values with _ | ⟨a, _ | ⟨b, t⟩⟩
    · rfl
    · rfl
    · simp at h

theorem uniqueValid_nodup (g : Grid) : (uniqueValid g).Nodup :=
  ((List.perm_insertionSort _ _).nodup_iff).mpr (List.nodup_dedup _)

theorem uniqueValid_sorted (g : Grid) : List.Sorted (· < ·) (uniqueValid g) :=
  (List.sorted_insertionSort _ _).lt_of_le (uniqueValid_nodup g)

theorem mem_uniqueValid (g : Grid) (v : ℚ) :
    v ∈ uniqueValid g ↔ v ∈ validValues g := by
  unfold uniqueValid
  rw [(List.perm_insertionSort _ _).mem_iff, List.mem_dedup]

theorem classMapping_keys (g : Grid) :
    (classMapping g).map Prod.fst = uniqueValid g :=
  mappingOfValues_keys _

theorem foldl_keyfree (r acc : ℚ) :
    ∀ m : List (ℚ × ℚ), (∀ kv ∈ m, r ≠ kv.1) →
      m.foldl (fun cur kv => if r = kv.1 then kv.2 else cur) acc = acc
  | [], _ => rfl
  | kv :: rest, h => by
    rw [List.foldl_cons, if_neg (h kv (by simp))]
    exact foldl_keyfree r acc rest (fun p hp => h p (by simp [hp]))

theorem dictLookup_eq_none (k : ℚ) :
    ∀ m : List (ℚ × ℚ), dictLookup m k = none ↔ k ∉ m.map Prod.fst
  | [] => by simp [dictLookup]
  | kv :: rest => by
    have hrec := dictLookup_eq_none k rest
    simp only [dictLookup, List.map_cons, List.mem_cons]
    by_cases h : kv.1 = k
    · simp only [if_pos h]
      constructor
      · intro hx
        exact absurd hx (Option.some_ne_none _)
      · intro hx
        exact absurd (Or.inl h.symm) hx
    · simp only [if_neg h]
      rw [hrec]
      constructor
      · intro hx hor
        rcases hor with h1 | h2
        · exact h h1.symm
        · exact hx h2
      · intro hx h2
        exact hx (Or.inr h2)

theorem foldl_eq_dictLookup (r acc : ℚ) :
    ∀ m : List (ℚ × ℚ), (m.map Prod.fst).Nodup →
      m.foldl (fun cur kv => if r = kv.1 then kv.2 else cur) acc =
        (dictLookup m r).getD acc
  | [], _ => rfl
  | kv :: rest, h => by
    have hcons : (kv.1 :: rest.map Prod.fst).Nodup := by
      rw [List.map_cons] at h
      exact h
    have h1 : kv.1 ∉ rest.map Prod.fst := (List.nodup_cons.mp hcons).1
    have h2 : (rest.map Prod.fst).Nodup := (List.nodup_cons.mp hcons).2
    rw [List.foldl_cons]
    by_cases hk : r = kv.1
    · rw [if_pos hk]
      have hnone : ∀ p ∈ rest, r ≠ p.1 := by
        intro p hp hrp
        rw [hk] at hrp
        exact h1 (hrp ▸ List.mem_map_of_mem _ hp)
      rw [foldl_keyfree r kv.2 rest hnone]
      simp [dictLookup, hk.symm]
    · rw [if_neg hk]
      have hstep : dictLookup (kv :: rest) r = dictLookup rest r := by
        have hne : ¬ kv.1 = r := fun hkr => hk hkr.symm
        simp [dictLookup, hne]
      rw [hstep]
      exact foldl_eq_dictLookup r acc rest h2

theorem normalizeCell_some (m : List (ℚ × ℚ)) (hm : (m.map Prod.fst).Nodup)
    (q : ℚ) :
    normalizeCell m (some q) =
      some ((dictLookup m ((roundHalfEven q : ℚ))).getD ((roundHalfEven q : ℚ))) :=
  congrArg some (foldl_eq_dictLookup _ _ m hm)

theorem cellAt_normalize (m : List (ℚ × ℚ)) (g : Grid) (i j : ℕ) :
    cellAt (Udm2.normalize m g) i j = (cellAt g i j).map (normalizeCell m) := by
  unfold cellAt Udm2.normalize
  rw [List.getElem?_map]
  cases g[i]? with
  | none => rfl
  | some row => simp [List.getElem?_map]

theorem roundHalfEven_intCast (r : ℤ) : roundHalfEven ((r : ℚ)) = r := by
  unfold roundHalfEven
  rw [Int.floor_intCast]
  norm_num

theorem zip_range_map :
    ∀ (f : ℕ → ℚ) (vs : List ℚ),
      vs.zip ((List.range vs.length).map f) =
        (List.range vs.length).map (fun i => (vs.getD i 0, f i))
  | _, [] => rfl
  | f, v :: t => by
    rw [List.length_cons, List.range_succ_eq_map, List.map_cons, List.map_cons,
      List.map_map, List.map_map, List.zip_cons_cons,
      zip_range_map (f ∘ Nat.succ) t]
    simp [Function.comp]

theorem mappingOfValues_eq_specPositions :
    ∀ vs : List ℚ, mappingOfValues vs = specPositions vs
  | [] => rfl
  | [_] => rfl
  | a :: b :: t => by
    show mappingOfValues (a :: b :: t) =
      (List.range (a :: b :: t).length).map
        (fun i : ℕ => ((a :: b :: t).getD i 0,
          (i : ℚ) / (((a :: b :: t).length : ℚ) - 1)))
    unfold mappingOfValues
    rw [if_pos (by simp)]
    exact zip_range_map _ _

end Udm2

namespace Udm2

set_option maxRecDepth 10000

/-- C1: for the all-valid band `[[0,1,5],[5,1,0]]` the mapping built by
`_ClassNormalize.__init__` is `{0 ↦ 0, 1 ↦ 0.5, 5 ↦ 1}`, and `normalize`
replaces each entry by its mapped position, keeping the shape of the
input. -/
theorem claim_C1 :
    classMapping band1 = [(0, 0), (1, 1/2), (5, 1)] ∧
    Udm2.normalize (classMapping band1) band1 =
      [[some 0, some (1/2), some 1], [some 1, some (1/2), some 0]] := by
  constructor
  · norm_num [classMapping, uniqueValid, validValues, mappingOfValues,
      List.insertionSort, List.orderedInsert, List.dedup, band1, List.range,
      List.range.loop]
  · norm_num [classMapping, uniqueValid, validValues, mappingOfValues,
      Udm2.normalize, normalizeCell, roundHalfEven, band1,
      List.insertionSort, List.orderedInsert, List.dedup, List.range,
      List.range.loop]

/-- C2 counterexample: `_ClassNormalize.__call__` never raises.  On a band
holding the value 7 with the mapping `{0 ↦ 0}` (7 absent from the mapping) it
returns the band unchanged instead of failing, and on an empty band it
returns an empty band instead of failing; no `InvalidInputError` exists in
the code. -/
theorem claim_C2_counterexample :
    Udm2.normalize [(0, 0)] [[some 7]] = [[some 7]] ∧
    Udm2.normalize [(0, 0)] ([] : Grid) = [] := by
  constructor
  · norm_num [Udm2.normalize, normalizeCell, roundHalfEven]
  · rfl

/-- C2 amended: `normalize` raises no error.  An empty band yields an empty
band, and a valid entry whose rounded value is absent from the mapping is
left at its rounded value rather than causing a failure. -/
theorem claim_C2_theorem (m : List (ℚ × ℚ)) (g : Grid) (i j : ℕ) (q : ℚ)
    (hc : cellAt g i j = some (some q))
    (hk : ((roundHalfEven q : ℚ)) ∉ m.map Prod.fst) :
    Udm2.normalize m ([] : Grid) = [] ∧
    cellAt (Udm2.normalize m g) i j = some (some ((roundHalfEven q : ℚ))) := by
  refine ⟨rfl, ?_⟩
  rw [cellAt_normalize, hc]
  have hne : ∀ p ∈ m, ((roundHalfEven q : ℚ)) ≠ p.1 := by
    intro p hp he
    exact hk (he ▸ List.mem_map_of_mem _ hp)
  simp only [Option.map_some', normalizeCell]
  rw [foldl_keyfree _ _ _ hne]

/-- C2 witness: the amended theorem applied to the band `[[7]]` and the
mapping `{0 ↦ 0}`. -/
theorem claim_C2_witness :
    cellAt [[some 7]] 0 0 = some (some 7) ∧
    ((roundHalfEven (7 : ℚ) : ℚ)) ∉ ([((0:ℚ), (0:ℚ))].map Prod.fst) ∧
    cellAt (Udm2.normalize [((0:ℚ), (0:ℚ))] [[some 7]]) 0 0 =
      some (some ((roundHalfEven (7 : ℚ) : ℚ))) := by
  have h1 : cellAt [[some (7:ℚ)]] 0 0 = some (some 7) := rfl
  have h2 : ((roundHalfEven (7 : ℚ) : ℚ)) ∉ ([((0:ℚ), (0:ℚ))].map Prod.fst) := by
    norm_num [roundHalfEven]
  exact ⟨h1, h2,
    (claim_C2_theorem [((0:ℚ), (0:ℚ))] [[some 7]] 0 0 7 h1 h2).2⟩

/-- C3 counterexample: the raw values 0.8 and 1.2 both round to 1 but are
kept as two distinct keys of the mapping built from the band `[[0.8, 1.2]]`;
`_ClassNormalize.__init__` does not round, so they do not collapse to a
single class. -/
theorem claim_C3_counterexample :
    roundHalfEven (4/5) = roundHalfEven (6/5) ∧ (4/5 : ℚ) ≠ 6/5 ∧
    classMapping [[some (4/5), some (6/5)]] = [(4/5, 0), (6/5, 1)] := by
  refine ⟨by norm_num [roundHalfEven], by norm_num, ?_⟩
  norm_num [classMapping, uniqueValid, validValues, mappingOfValues,
    List.insertionSort, List.orderedInsert, List.dedup, List.pwFilter,
    List.filterMap, id_eq, List.range, List.range.loop]

/-- C3 amended: building the mapping performs no rounding — its keys are
exactly the raw distinct valid values of the band; rounding to the nearest
integer (half to even) happens only inside `normalize`, which rounds each
entry before comparing it with the keys. -/
theorem claim_C3_theorem (g : Grid) (m : List (ℚ × ℚ)) (q v : ℚ) :
    (v ∈ (classMapping g).map Prod.fst ↔ v ∈ validValues g) ∧
    normalizeCell m (some q) =
      normalizeCell m (some ((roundHalfEven q : ℚ))) := by
  constructor
  · rw [classMapping_keys]
    exact mem_uniqueValid g v
  · simp only [normalizeCell, roundHalfEven_intCast]

/-- C4: the mapping assigns the distinct valid codes, in ascending order,
the positions `i/(N-1)` for `N ≥ 2`, position 0 to a single code, and is
empty when there are no valid codes; its keys are strictly increasing. -/
theorem claim_C4 (g : Grid) :
    classMapping g = specPositions (uniqueValid g) ∧
    List.Sorted (· < ·) ((classMapping g).map Prod.fst) := by
  refine ⟨mappingOfValues_eq_specPositions _, ?_⟩
  rw [classMapping_keys]
  exact uniqueValid_sorted g

end Udm2

namespace Udm2

set_option maxRecDepth 10000

theorem legendList_all_present {α : Type} (m : List (ℚ × ℚ)) :
    ∀ labels : List (ℚ × α), (∀ kl ∈ labels, kl.1 ∈ m.map Prod.fst) →
      legendList m labels =
        .ok (labels.map (fun kl => ((dictLookup m kl.1).getD 0, kl.2)))
  | [], _ => rfl
  | kl :: rest, h => by
    have hhead : kl.1 ∈ m.map Prod.fst := h kl (by simp)
    have hne : dictLookup m kl.1 ≠ none := by
      rw [ne_eq, dictLookup_eq_none]
      simpa using hhead
    rcases hopt : dictLookup m kl.1 with _ | p
    · exact absurd hopt hne
    · simp only [legendList, hopt]
      rw [legendList_all_present m rest (fun x hx => h x (by simp [hx]))]
      simp [Except.map, hopt]

theorem legendList_missing {α : Type} (m : List (ℚ × ℚ)) :
    ∀ labels : List (ℚ × α), (∃ kl ∈ labels, kl.1 ∉ m.map Prod.fst) →
      legendList m labels = .error "KeyError"
  | [], h => by simp at h
  | kl :: rest, h => by
    by_cases hhead : dictLookup m kl.1 = none
    · simp only [legendList, hhead]
    · rcases h with ⟨p, hp, hmiss⟩
      rcases List.mem_cons.mp hp with rfl | hptail
      · exact absurd ((dictLookup_eq_none p.1 m).mpr hmiss) hhead
      · rcases hsome : dictLookup m kl.1 with _ | w
        · exact absurd hsome hhead
        · simp only [legendList, hsome]
          rw [legendList_missing m rest ⟨p, hptail, hmiss⟩]
          rfl

/-- C5 counterexample: with mapping `{0 ↦ 0}` and the supplied labels
`{1: "x"}`, the key 1 is absent from the mapping; the legend construction of
`imshow_class_band` raises `KeyError` (only `AttributeError` is caught)
instead of skipping the key. -/
theorem claim_C5_counterexample :
    legendEntries [((0:ℚ), (0:ℚ))] (some [((1:ℚ), "x")]) = .error "KeyError" ∧
    legendEntries [((0:ℚ), (0:ℚ))] (some [((1:ℚ), "x")]) ≠
      .ok ([] : List (ℚ × String)) := by
  constructor
  · norm_num [legendEntries, legendList, dictLookup]
  · simp [legendEntries, legendList, dictLookup]

/-- C5 amended: when labels are supplied, each key is looked up in the
mapping in order and paired with its label; a key absent from the mapping
raises `KeyError` rather than being skipped; when no labels are supplied,
no legend entries are produced, as a valid non-error outcome. -/
theorem claim_C5_theorem {α : Type} (m : List (ℚ × ℚ))
    (labels : List (ℚ × α)) :
    legendEntries m (none : Option (List (ℚ × α))) = .ok [] ∧
    ((∀ kl ∈ labels, kl.1 ∈ m.map Prod.fst) →
      legendEntries m (some labels) =
        .ok (labels.map (fun kl => ((dictLookup m kl.1).getD 0, kl.2)))) ∧
    ((∃ kl ∈ labels, kl.1 ∉ m.map Prod.fst) →
      legendEntries m (some labels) = .error "KeyError") :=
  ⟨rfl, fun h => legendList_all_present m labels h,
   fun h => legendList_missing m labels h⟩

/-- C5 witness: the amended theorem applied to the mapping
`{0 ↦ 0, 1 ↦ 0.5}` and the labels `{0: "a", 1: "b"}`. -/
theorem claim_C5_witness :
    (∀ kl ∈ [((0:ℚ), "a"), ((1:ℚ), "b")],
      kl.1 ∈ ([((0:ℚ), (0:ℚ)), ((1:ℚ), (1/2 : ℚ))].map Prod.fst)) ∧
    legendEntries [((0:ℚ), (0:ℚ)), ((1:ℚ), (1/2 : ℚ))]
        (some [((0:ℚ), "a"), ((1:ℚ), "b")]) =
      .ok [((0:ℚ), "a"), ((1/2 : ℚ), "b")] := by
  have h : ∀ kl ∈ [((0:ℚ), "a"), ((1:ℚ), "b")],
      kl.1 ∈ ([((0:ℚ), (0:ℚ)), ((1:ℚ), (1/2 : ℚ))].map Prod.fst) := by
    norm_num
  refine ⟨h, ?_⟩
  rw [(claim_C5_theorem [((0:ℚ), (0:ℚ)), ((1:ℚ), (1/2 : ℚ))]
    [((0:ℚ), "a"), ((1:ℚ), "b")]).2.1 h]
  norm_num [dictLookup]

end Udm2

namespace Udm2

set_option maxRecDepth 10000

/-- C6: `get_label` is total on bytes, and for every byte other than 0 and 1
at least one recognized label (cloud or missing/suspect channel data) is
produced, so the defensive binary-string fallback is unreachable and the
result is the join of the recognized labels. -/
theorem claim_C6 : ∀ v : ℕ, v < 256 → v ≠ 0 → v ≠ 1 →
    udmLabelsList v ≠ [] ∧
    getLabel v = String.intercalate " + " (udmLabelsList v) := by decide

/-- C6 witness: the theorem applied at byte 128. -/
theorem claim_C6_witness :
    (128 : ℕ) < 256 ∧ (128 : ℕ) ≠ 0 ∧ (128 : ℕ) ≠ 1 ∧
    (udmLabelsList 128 ≠ [] ∧
      getLabel 128 = String.intercalate " + " (udmLabelsList 128)) :=
  ⟨by decide, by decide, by decide,
   claim_C6 128 (by decide) (by decide) (by decide)⟩

set_option maxHeartbeats 1600000 in
set_option synthInstance.maxSize 2000 in
/-- C7: for bytes 2–255, `"cloud"` appears among the labels exactly when
bit 1 is set; the channel list equals the fixed six-channel table filtered
by the set bits, in ascending bit order; when channel bits are set the
result is the `missing/suspect ... data` label, prefixed by `"cloud + "`
exactly when bit 1 is also set; and byte 0b11111110 decodes to all six
channel names in order plus cloud. -/
theorem claim_C7 : ∀ v : ℕ, v < 256 → 2 ≤ v →
    ("cloud" ∈ udmLabelsList v ↔ v &&& 2 ≠ 0) ∧
    udmBands v = (channelTable.filter (fun p => v &&& p.1 ≠ 0)).map Prod.snd ∧
    (v &&& 2 ≠ 0 → v &&& 252 ≠ 0 → getLabel v =
      "cloud" ++ " + " ++ ("missing/suspect " ++
        String.intercalate ", "
          ((channelTable.filter (fun p => v &&& p.1 ≠ 0)).map Prod.snd) ++
        " data")) ∧
    (v &&& 2 = 0 → v &&& 252 ≠ 0 → getLabel v =
      "missing/suspect " ++
        String.intercalate ", "
          ((channelTable.filter (fun p => v &&& p.1 ≠ 0)).map Prod.snd) ++
        " data") ∧
    getLabel 254 =
      "cloud + missing/suspect Blue, Green, Red, Red-Edge, NIR, Coastal Blue/Green I/Yellow data" := by
  decide

/-- C7 witness: the theorem applied at byte 6 (cloud plus Blue). -/
theorem claim_C7_witness :
    (6 : ℕ) < 256 ∧ (2 : ℕ) ≤ 6 ∧ (6 : ℕ) &&& 2 ≠ 0 ∧ (6 : ℕ) &&& 252 ≠ 0 ∧
    getLabel 6 = "cloud" ++ " + " ++ ("missing/suspect " ++
      String.intercalate ", "
        ((channelTable.filter (fun p => (6 : ℕ) &&& p.1 ≠ 0)).map Prod.snd) ++
      " data") :=
  ⟨by decide, by decide, by decide, by decide,
   (claim_C7 6 (by decide) (by decide)).2.2.1 (by decide) (by decide)⟩

/-- C9: for bytes 2–255 the decoder ignores bit 0 (blackfill): the label of
`v` equals the label of `v` with bit 0 cleared; in particular byte 3 decodes
to exactly `"cloud"`. -/
theorem claim_C9 : ∀ v : ℕ, v < 256 → 2 ≤ v →
    getLabel v = getLabel (v &&& 254) ∧ getLabel 3 = "cloud" := by decide

/-- C9 witness: the theorem applied at byte 3. -/
theorem claim_C9_witness :
    (3 : ℕ) < 256 ∧ (2 : ℕ) ≤ 3 ∧
    (getLabel 3 = getLabel ((3 : ℕ) &&& 254) ∧ getLabel 3 = "cloud") :=
  ⟨by decide, by decide, claim_C9 3 (by decide) (by decide)⟩

end Udm2

namespace Udm2

set_option maxRecDepth 10000

/-- C8 counterexample: for the all-valid band `[[1.5]]` the built mapping is
`{1.5 ↦ 0}`, yet `normalize` returns `[[2]]`: the valid entry is replaced by
its rounded value, not by its mapped position 0. -/
theorem claim_C8_counterexample :
    classMapping [[some (3/2)]] = [(3/2, 0)] ∧
    Udm2.normalize (classMapping [[some (3/2)]]) [[some (3/2)]] = [[some 2]] ∧
    ([[some (2:ℚ)]] : Grid) ≠ [[some 0]] := by
  refine ⟨?_, ?_, by norm_num⟩
  · norm_num [classMapping, uniqueValid, validValues, mappingOfValues,
      List.insertionSort, List.orderedInsert, List.dedup, List.pwFilter,
      List.filterMap, id_eq]
  · norm_num [classMapping, uniqueValid, validValues, mappingOfValues,
      Udm2.normalize, normalizeCell, roundHalfEven,
      List.insertionSort, List.orderedInsert, List.dedup, List.pwFilter,
      List.filterMap, id_eq]

/-- C8 amended: masked entries are never keys of the mapping and are never
altered by `normalize`; a valid entry is first rounded half-to-even and then
replaced by the mapped position of its rounded value when that value is a
key, and left at its rounded value otherwise. -/
theorem claim_C8_theorem (g : Grid) (m : List (ℚ × ℚ)) (i j : ℕ)
    (hm : (m.map Prod.fst).Nodup) :
    (∀ p ∈ classMapping g, p.1 ∈ validValues g) ∧
    (cellAt g i j = some none → cellAt (Udm2.normalize m g) i j = some none) ∧
    (∀ q : ℚ, cellAt g i j = some (some q) →
      cellAt (Udm2.normalize m g) i j =
        some (some ((dictLookup m ((roundHalfEven q : ℚ))).getD
          ((roundHalfEven q : ℚ))))) := by
  refine ⟨?_, ?_, ?_⟩
  · intro p hp
    have hmem : p.1 ∈ (classMapping g).map Prod.fst :=
      List.mem_map_of_mem _ hp
    rw [classMapping_keys] at hmem
    exact (mem_uniqueValid g p.1).mp hmem
  · intro hc
    rw [cellAt_normalize, hc]
    rfl
  · intro q hc
    rw [cellAt_normalize, hc, Option.map_some', normalizeCell_some m hm q]

/-- C8 witness: the amended theorem applied to the band `[[0, masked]]` and
the mapping `{0 ↦ 0, 1 ↦ 1}`. -/
theorem claim_C8_witness :
    (([((0:ℚ), (0:ℚ)), ((1:ℚ), (1:ℚ))].map Prod.fst).Nodup) ∧
    cellAt (Udm2.normalize [((0:ℚ), (0:ℚ)), ((1:ℚ), (1:ℚ))]
      [[some 0, none]]) 0 1 = some none ∧
    cellAt (Udm2.normalize [((0:ℚ), (0:ℚ)), ((1:ℚ), (1:ℚ))]
        [[some 0, none]]) 0 0 =
      some (some ((dictLookup [((0:ℚ), (0:ℚ)), ((1:ℚ), (1:ℚ))]
        ((roundHalfEven (0:ℚ) : ℚ))).getD ((roundHalfEven (0:ℚ) : ℚ)))) := by
  have hm : (([((0:ℚ), (0:ℚ)), ((1:ℚ), (1:ℚ))]).map Prod.fst).Nodup := by
    norm_num
  refine ⟨hm, ?_, ?_⟩
  · exact (claim_C8_theorem [[some 0, none]] _ 0 1 hm).2.1 rfl
  · exact (claim_C8_theorem [[some 0, none]] _ 0 0 hm).2.2 0 rfl

/-- C10: `visualize_udm2` supplies class labels for a band exactly when the
band has fewer than 5 distinct values; with 5 or more distinct values the
band gets `class_labels = None`, and hence no legend entries. -/
theorem claim_C10 (band : Grid) :
    ((uniqueValid band).length < 5 →
      visualizeClassLabels band =
        some ((uniqueValid band).map (fun v => (v, v)))) ∧
    (5 ≤ (uniqueValid band).length →
      visualizeClassLabels band = none ∧
      legendEntries (classMapping band) (visualizeClassLabels band) =
        .ok ([] : List (ℚ × ℚ))) := by
  constructor
  · intro h
    simp [visualizeClassLabels, h]
  · intro h
    have hno : visualizeClassLabels band = none := by
      simp [visualizeClassLabels, Nat.not_lt.mpr h]
    exact ⟨hno, by rw [hno]; rfl⟩

/-- C10 witness: the theorem applied to a band with three distinct values
(legend supplied) and to a band with five distinct values (no legend). -/
theorem claim_C10_witness :
    ((uniqueValid band1).length < 5 ∧
      visualizeClassLabels band1 =
        some ((uniqueValid band1).map (fun v => (v, v)))) ∧
    (5 ≤ (uniqueValid band5).length ∧
      (visualizeClassLabels band5 = none ∧
        legendEntries (classMapping band5) (visualizeClassLabels band5) =
          .ok ([] : List (ℚ × ℚ)))) := by
  have h1 : (uniqueValid band1).length < 5 := by
    norm_num [uniqueValid, validValues, band1, List.insertionSort,
      List.orderedInsert, List.dedup, List.pwFilter, List.filterMap, id_eq]
  have h5 : 5 ≤ (uniqueValid band5).length := by
    norm_num [uniqueValid, validValues, band5, List.insertionSort,
      List.orderedInsert, List.dedup, List.pwFilter, List.filterMap, id_eq]
  exact ⟨⟨h1, (claim_C10 band1).1 h1⟩, ⟨h5, (claim_C10 band5).2 h5⟩⟩

end Udm2
